import Mathlib

/-!
Verification development for the GSV Tracker browser client
(per-city detail view, city.js).

The definitions below are a shallow embedding of the JavaScript source:

* the PapaParse-style CSV record parser and dynamic typing that the read
  loop feeds with reassembled text batches;
* the row filter / deduplication / aggregation pass (processRows);
* the streaming read loop (buffer reassembly at the last newline, header
  re-prepending, progress reporting, error handling);
* the fuzzy location resolver (levenshteinDistance, parseLocationQuery,
  findBestMatchingCity);
* the selection state machine driven by legend year toggles, chart date
  clicks and map background clicks.

Modelling conventions:

* JavaScript strings are Lean Strings / List Char (code points; all data
  involved is in the BMP, where JS code units coincide).
* Values produced by PapaParse dynamic typing are modelled by Cell;
  null and undefined are collapsed into Cell.undef, which is faithful for
  every operation the source performs on them (truthiness tests and
  strict comparison against string literals).
* Numbers are modelled as exact rationals.  Only truthiness (zero test)
  and identity of numeric cells matter to the claims.
* Date parsing (new Date) is modelled for the value forms the pipeline
  can feed it: ISO year / year-month / year-month-day strings as in the
  data files (other string forms are modelled as invalid dates), and
  millisecond numbers.  The local timezone is taken to be UTC.
* Presentational outputs (marker colors, popup HTML, formatted ages,
  human-readable error message strings) are omitted; they are not
  observed by any claim.
-/

namespace GsvCity

/-! ## JS primitives -/

/-- Whitespace as recognised by the JavaScript trim family. -/
def jsWhitespace (c : Char) : Bool :=
  c = ' ' || c = '\t' || c = '\n' || c = '\r' || c = '\x0b' || c = '\x0c'

/-- JS String.prototype.trim. -/
def jsTrim (cs : List Char) : List Char :=
  ((cs.dropWhile jsWhitespace).reverse.dropWhile jsWhitespace).reverse

/-- JS String.prototype.trimEnd. -/
def jsTrimEnd (cs : List Char) : List Char :=
  (cs.reverse.dropWhile jsWhitespace).reverse

/-- Index of the last newline in a string (String.prototype.lastIndexOf). -/
def lastNewlineIdx : List Char → Option Nat
  | [] => none
  | c :: t =>
    match lastNewlineIdx t with
    | some i => some (i + 1)
    | none => if c = '\n' then some 0 else none

/-- Index of the first newline in a string (String.prototype.indexOf). -/
def firstNewlineIdx : List Char → Option Nat
  | [] => none
  | c :: t => if c = '\n' then some 0 else (firstNewlineIdx t).map (· + 1)

/-- JS String.prototype.split with a one-character separator:
split("") never occurs here; splitting the empty string yields [""]. -/
def splitOnChar (sep : Char) : List Char → List (List Char)
  | [] => [[]]
  | c :: t =>
    if c = sep then [] :: splitOnChar sep t
    else
      match splitOnChar sep t with
      | h :: r => (c :: h) :: r
      | [] => [[c]]

/-- JS String.prototype.toLowerCase on one character (the data is
ASCII; the Unicode cases do not arise). -/
def jsLowerChar (c : Char) : Char :=
  if 65 ≤ c.toNat && c.toNat ≤ 90 then Char.ofNat (c.toNat + 32) else c

def jsToLower (s : String) : String := String.mk (s.data.map jsLowerChar)

def isDigit (c : Char) : Bool := 48 ≤ c.toNat && c.toNat ≤ 57

def digitsToNat (ds : List Char) : Nat :=
  ds.foldl (fun n c => 10 * n + (c.toNat - 48)) 0

/-! ## PapaParse dynamic typing -/

/-- A field value as produced by PapaParse with dynamicTyping: true.
Cell.undef stands for both null (empty input field) and undefined
(column absent from a short row); the source only ever tests such values
for truthiness or compares them strictly against string literals, and
null and undefined behave identically there. -/
inductive Cell where
  | undef : Cell
  | boolv : Bool → Cell
  | str : String → Cell
  | num : Rat → Cell
deriving DecidableEq

/-- JS truthiness of a cell value. -/
def Cell.truthy : Cell → Bool
  | .undef => false
  | .boolv b => b
  | .str s => s ≠ ""
  | .num q => q ≠ 0

/-- JS strict equality of a cell value against a string literal. -/
def Cell.eqStr : Cell → String → Bool
  | .str t, s => t = s
  | _, _ => false

/-- Exponent suffix of the PapaParse FLOAT grammar: the signed decimal
exponent, or none when malformed. -/
def expSuffix (cs : List Char) : Option Int :=
  let (sgn, ds) := match cs with
    | '-' :: t => ((-1 : Int), t)
    | '+' :: t => ((1 : Int), t)
    | t => ((1 : Int), t)
  if ds = [] || !ds.all isDigit then none
  else some (sgn * digitsToNat ds)

/-- The exact rational value sign * intpart.frac * 10^e, assembled with
integer arithmetic (numbers are modelled as exact rationals). -/
def ratOfParts (sgn : Int) (intPart frac : List Char) (e : Int) : Rat :=
  let mant : Int := sgn * (digitsToNat intPart * 10 ^ frac.length + digitsToNat frac)
  let e2 : Int := e - frac.length
  if 0 ≤ e2 then mkRat (mant * 10 ^ e2.toNat) 1
  else mkRat mant (10 ^ (-e2).toNat)

/-- PapaParse FLOAT test plus parseFloat: optional sign, digits with an
optional fraction, optional exponent, surrounded by whitespace. -/
def parseFloatQ (s : String) : Option Rat :=
  let cs := jsTrim s.data
  let (sgn, cs) := match cs with
    | '-' :: t => ((-1 : Int), t)
    | t => ((1 : Int), t)
  let intPart := cs.takeWhile isDigit
  let cs1 := cs.dropWhile isDigit
  match cs1 with
  | [] => if intPart = [] then none else some (ratOfParts sgn intPart [] 0)
  | '.' :: t =>
    let frac := t.takeWhile isDigit
    let cs2 := t.dropWhile isDigit
    if intPart = [] && frac = [] then none
    else
      match cs2 with
      | [] => some (ratOfParts sgn intPart frac 0)
      | 'e' :: t2 => (expSuffix t2).map (ratOfParts sgn intPart frac)
      | 'E' :: t2 => (expSuffix t2).map (ratOfParts sgn intPart frac)
      | _ => none
  | 'e' :: t2 => if intPart = [] then none else (expSuffix t2).map (ratOfParts sgn intPart [])
  | 'E' :: t2 => if intPart = [] then none else (expSuffix t2).map (ratOfParts sgn intPart [])
  | _ => none

/-- PapaParse dynamicTyping applied to one raw field string:
booleans, then numbers, then the empty string to null, else the string. -/
def typeCell (s : String) : Cell :=
  if s = "true" || s = "TRUE" then .boolv true
  else if s = "false" || s = "FALSE" then .boolv false
  else
    match parseFloatQ s with
    | some q => .num q
    | none => if s = "" then .undef else .str s

/-! ## Dates (new Date, getFullYear, toISOString) -/

structure SDate where
  year : Int
  month : Nat
  day : Nat
deriving DecidableEq

def isLeapYear (y : Int) : Bool :=
  y % 4 = 0 && (y % 100 ≠ 0 || y % 400 = 0)

def daysInMonth (y : Int) (m : Nat) : Nat :=
  if m = 2 then (if isLeapYear y then 29 else 28)
  else if m = 4 || m = 6 || m = 9 || m = 11 then 30
  else 31

/-- Parse the ISO date-only forms YYYY, YYYY-MM, YYYY-MM-DD accepted by
new Date, with calendar validity exactly as the JS engine enforces it
(month 01..12, day 01..days-in-month). -/
def parseIsoDate (s : String) : Option SDate :=
  match (splitOnChar '-' s.data).map String.mk with
  | [ys] =>
    if ys.length = 4 && ys.data.all isDigit then
      some ⟨(digitsToNat ys.data : Int), 1, 1⟩
    else none
  | [ys, ms] =>
    if ys.length = 4 && ys.data.all isDigit && ms.length = 2 && ms.data.all isDigit then
      let m := digitsToNat ms.data
      if 1 ≤ m && m ≤ 12 then some ⟨(digitsToNat ys.data : Int), m, 1⟩ else none
    else none
  | [ys, ms, ds] =>
    if ys.length = 4 && ys.data.all isDigit && ms.length = 2 && ms.data.all isDigit
        && ds.length = 2 && ds.data.all isDigit then
      let y : Int := (digitsToNat ys.data : Int)
      let m := digitsToNat ms.data
      let d := digitsToNat ds.data
      if 1 ≤ m && m ≤ 12 && 1 ≤ d && d ≤ daysInMonth y m then some ⟨y, m, d⟩ else none
    else none
  | _ => none

/-- Civil date from days since the Unix epoch (standard era arithmetic). -/
def civilFromDays (z0 : Int) : SDate :=
  let z := z0 + 719468
  let era := z.fdiv 146097
  let doe := z - era * 146097
  let yoe := (doe - doe / 1460 + doe / 36524 - doe / 146096) / 365
  let y := yoe + era * 400
  let doy := doe - (365 * yoe + yoe / 4 - yoe / 100)
  let mp := (5 * doy + 2) / 153
  let d := doy - (153 * mp + 2) / 5 + 1
  let m := if mp < 10 then mp + 3 else mp - 9
  { year := y + (if m ≤ 2 then 1 else 0), month := m.toNat, day := d.toNat }

/-- new Date(ms): valid when within 8.64e15 ms of the epoch. -/
def dateFromMs (ms : Int) : Option SDate :=
  if ms.natAbs ≤ 8640000000000000 then some (civilFromDays (ms.fdiv 86400000)) else none

/-- new Date(value) followed by the isNaN(getTime()) validity test:
none stands for an Invalid Date. -/
def jsNewDate : Cell → Option SDate
  | .str s => parseIsoDate s
  | .num q => dateFromMs q.floor
  | .boolv b => dateFromMs (if b then 1 else 0)
  | .undef => none

def pad2 (n : Nat) : String := if n < 10 then "0" ++ toString n else toString n

def pad4 (n : Int) : String :=
  if n < 0 then "-" ++ toString (-n)
  else
    let s := toString n
    if s.length ≥ 4 then s else String.mk (List.replicate (4 - s.length) '0') ++ s

/-- captureDate.toISOString().split("T")[0]: the day key of the temporal map. -/
def isoDay (d : SDate) : String := pad4 d.year ++ "-" ++ pad2 d.month ++ "-" ++ pad2 d.day

/-! ## The CSV record parser

Model of the PapaParse core the loop invokes through
Papa.parse(text, \x7b header: true, dynamicTyping: true, skipEmptyLines: true \x7d).
PapaParse is a third-party library; this follows its documented RFC 4180
behaviour (delimiter comma, newline LF, quote character doubled for
escaping) including its fallback on a quoted field that never closes:
the rest of the input, opening quote included, becomes the final field
of the final record.  A closing quote followed by a character other than
a delimiter or newline (malformed input no theorem exercises) is kept as
literal content and scanning continues. -/

/-- Scan an unquoted field: content up to (excluding) the next comma or
newline, which is left at the head of the remainder. -/
def scanUnquoted : List Char → List Char × List Char
  | [] => ([], [])
  | c :: cs =>
    if c = ',' || c = '\n' then ([], c :: cs)
    else
      let p := scanUnquoted cs
      (c :: p.1, p.2)

/-- Scan a quoted field body (input starts after the opening quote).
Returns the unescaped content and the remainder after the closing quote,
or none when the quote never closes before the end of the input. -/
def scanQuoted : List Char → Option (List Char × List Char)
  | [] => none
  | '"' :: '"' :: cs => (scanQuoted cs).map (fun p => ('"' :: p.1, p.2))
  | ['"'] => some ([], [])
  | '"' :: c :: cs =>
    if c = ',' || c = '\n' then some ([], c :: cs)
    else (scanQuoted (c :: cs)).map (fun p => ('"' :: p.1, p.2))
  | c :: cs => (scanQuoted cs).map (fun p => (c :: p.1, p.2))

/-- Scan one field, quoted or not.  On an unterminated quote the raw
remainder (opening quote included) becomes the field, as in PapaParse. -/
def parseField : List Char → List Char × List Char
  | '"' :: cs =>
    match scanQuoted cs with
    | some p => p
    | none => ('"' :: cs, [])
  | cs => scanUnquoted cs

/-- Fields of one record; consumes the terminating newline.  The fuel
argument only bounds the recursion; any fuel above the input length is
enough, and callers pass length + 1. -/
def parseRecordGo : Nat → List Char → List (List Char) × List Char
  | 0, cs => ([], cs)
  | fuel + 1, cs =>
    let p := parseField cs
    match p.2 with
    | ',' :: more =>
      let q := parseRecordGo fuel more
      (p.1 :: q.1, q.2)
    | '\n' :: more => ([p.1], more)
    | _ => ([p.1], [])

/-- All records of the input.  No record is emitted for the empty
remainder after a trailing newline, as in PapaParse. -/
def parseRecordsGo : Nat → List Char → List (List (List Char))
  | 0, _ => []
  | _, [] => []
  | fuel + 1, cs =>
    let p := parseRecordGo (cs.length + 1) cs
    p.1 :: parseRecordsGo fuel p.2

def parseRecords (cs : List Char) : List (List String) :=
  (parseRecordsGo (cs.length + 1) cs).map (fun r => r.map String.mk)

/-! ## Rows and aggregation (processRows) -/

/-- The columns of a parsed row object that processRows reads.  The data
header is query_lat,query_lon,query_timestamp,pano_lat,pano_lon,pano_id,
capture_date,copyright_info,status; the first three columns are never
accessed and are dropped by this projection. -/
structure Row where
  pano_lat : Cell
  pano_lon : Cell
  pano_id : Cell
  capture_date : Cell
  copyright_info : Cell
  status : Cell
deriving DecidableEq

/-- Column index of a header name (first occurrence; the data header has
no duplicate names). -/
def colIdx (header : List String) (nm : String) : Option Nat :=
  header.findIdx? (fun h => h = nm)

/-- row[name]: undefined when the column is absent or the row is short. -/
def getCell (cells : List Cell) : Option Nat → Cell
  | some i => cells.getD i Cell.undef
  | none => Cell.undef

def mkRow (header : List String) (fields : List String) : Row :=
  let cells := fields.map typeCell
  { pano_lat := getCell cells (colIdx header "pano_lat"),
    pano_lon := getCell cells (colIdx header "pano_lon"),
    pano_id := getCell cells (colIdx header "pano_id"),
    capture_date := getCell cells (colIdx header "capture_date"),
    copyright_info := getCell cells (colIdx header "copyright_info"),
    status := getCell cells (colIdx header "status") }

/-- Papa.parse(text, ...).data: records, with empty lines skipped
(skipEmptyLines: true drops records that are a single empty field), the
first remaining record used as the header, and dynamic typing applied. -/
def papaData (text : List Char) : List Row :=
  let recs := (parseRecords text).filter (fun r => r ≠ [""])
  match recs with
  | [] => []
  | header :: rows => rows.map (mkRow header)

/-- One map marker: coordinate, capture date and identifier (color, age
string and popup are presentational and omitted). -/
structure Marker where
  lat : Cell
  lon : Cell
  captureDate : SDate
  panoId : Cell
deriving DecidableEq

/-- The aggregation state of one load.
processedPanos models the JS Set (insertion order, identity membership);
markers lists every created marker in creation order — markersByYear is
its partition by capture year (see yearBucket);
temporalMap models the JS Map dateStr to count (insertion-ordered);
validPoints collects the coordinates for fitBounds. -/
structure AggState where
  processedPanos : List Cell
  markers : List Marker
  temporalMap : List (String × Nat)
  validPoints : List (Cell × Cell)
deriving DecidableEq

/-- temporalMap.set(dateStr, (temporalMap.get(dateStr) or 0) + 1):
insertion-ordered in-place update, as a JS Map behaves. -/
def bumpTemporal : List (String × Nat) → String → List (String × Nat)
  | [], k => [(k, 1)]
  | (k0, n) :: t, k =>
    if k0 = k then (k0, n + 1) :: t else (k0, n) :: bumpTemporal t k

/-- The row filter of processRows, in source order: status, attribution,
presence of capture date / id / coordinates, then the dedup test. -/
def rowRejected (seen : List Cell) (row : Row) : Bool :=
  !(row.status.eqStr "OK") || !(row.copyright_info.eqStr "© Google") ||
  !row.capture_date.truthy || !row.pano_id.truthy ||
  !row.pano_lat.truthy || !row.pano_lon.truthy ||
  decide (row.pano_id ∈ seen)

/-- Body of the for-loop of processRows for one row: filter, add the id
to the dedup set, then parse the capture date (unparseable dates are
skipped after the set was already updated), then create the marker and
bump the temporal count. -/
def processRow (st : AggState) (row : Row) : AggState :=
  if rowRejected st.processedPanos row then st
  else
    let st1 : AggState := { st with processedPanos := st.processedPanos ++ [row.pano_id] }
    match jsNewDate row.capture_date with
    | none => st1
    | some d =>
      { st1 with
        markers := st1.markers ++
          [{ lat := row.pano_lat, lon := row.pano_lon, captureDate := d, panoId := row.pano_id }],
        temporalMap := bumpTemporal st1.temporalMap (isoDay d),
        validPoints := st1.validPoints ++ [(row.pano_lat, row.pano_lon)] }

def processRows (st : AggState) (rows : List Row) : AggState :=
  rows.foldl processRow st

def initAgg : AggState := ⟨[], [], [], []⟩

/-- markersByYear[y]: the markers whose capture year is y. -/
def yearBucket (st : AggState) (y : Int) : List Marker :=
  st.markers.filter (fun m => m.captureDate.year = y)

/-! ## The streaming read loop (loadData)

The fetch pipeline is
response.body - progressStream tap - DecompressionStream - TextDecoderStream
- manual reader.read() loop.  One ReadEvent models one successful pull:
the compressed byte count the progress tap accumulated for it, and the
decoded text fragment the loop receives.  decodeFail models a pull whose
promise rejects (malformed compressed stream): the loop throws and the
outer catch block runs, leaving all module-level aggregation state as it
was.  A non-ok HTTP response throws before any event is processed. -/

inductive ReadEvent where
  | chunk : Nat → List Char → ReadEvent
  | decodeFail : ReadEvent

/-- The mutable state of one run of loadData.
rowsFed instruments the loop: it records every parsed row handed to
processRows, in order, and is read by nothing (processRows receives
exactly result.data at each call site).
reported records every percentage written to the progress bar. -/
structure LoadState where
  buffer : List Char
  headerLine : Option (List Char)
  agg : AggState
  rowsFed : List Row
  receivedBytes : Nat
  reported : List Rat

/-- The progressStream transform for one compressed chunk:
receivedBytes += chunk.length; report min((receivedBytes/totalBytes)*100, 99). -/
def recordProgress (totalBytes : Nat) (st : LoadState) (sz : Nat) : LoadState :=
  let received := st.receivedBytes + sz
  let pct : Rat := min ((received : Rat) / (totalBytes : Rat) * 100) 99
  { st with receivedBytes := received, reported := st.reported ++ [pct] }

/-- The body of the read loop for one decoded text fragment: append to
the buffer; flush up to and including the last newline; on the first
flush split off the header line; re-prepend the stored header to every
flushed batch and hand the parsed rows to processRows. -/
def feedFragment (st : LoadState) (value : List Char) : LoadState :=
  let buf := st.buffer ++ value
  match lastNewlineIdx buf with
  | none => { st with buffer := buf }
  | some i =>
    let completeText := buf.take (i + 1)
    let rest := buf.drop (i + 1)
    match st.headerLine with
    | none =>
      match firstNewlineIdx completeText with
      | none => { st with buffer := rest, headerLine := some (jsTrimEnd completeText) }
      | some j =>
        let headerLine := completeText.take j
        let dataText := completeText.drop (j + 1)
        if jsTrim dataText ≠ [] then
          let rows := papaData (headerLine ++ '\n' :: dataText)
          { st with buffer := rest, headerLine := some headerLine,
                    agg := processRows st.agg rows, rowsFed := st.rowsFed ++ rows }
        else
          { st with buffer := rest, headerLine := some headerLine }
    | some h =>
      let rows := papaData (h ++ '\n' :: completeText)
      { st with buffer := rest, agg := processRows st.agg rows, rowsFed := st.rowsFed ++ rows }

/-- The done branch of the read loop plus the finalisation lines: flush
the remaining non-newline-terminated buffer content if non-blank, then
set the progress bar to 100. -/
def finishLoad (st : LoadState) : LoadState :=
  let st1 :=
    match st.headerLine with
    | some h =>
      if jsTrim st.buffer ≠ [] then
        let rows := papaData (h ++ '\n' :: st.buffer)
        { st with agg := processRows st.agg rows, rowsFed := st.rowsFed ++ rows }
      else st
    | none => st
  { st1 with reported := st1.reported ++ [100] }

inductive Outcome where
  | success | loadError | decodeError
deriving DecidableEq

structure LoadResult where
  final : LoadState
  outcome : Outcome

/-- The while(true) read loop: on a successful pull, tap progress and
feed the fragment; on done, finish; on a rejected pull, the throw lands
in the catch block, which leaves all aggregated state in place and does
not report 100. -/
def runEvents (totalBytes : Nat) (st : LoadState) : List ReadEvent → LoadResult
  | [] => { final := finishLoad st, outcome := .success }
  | .decodeFail :: _ => { final := st, outcome := .decodeError }
  | .chunk sz text :: rest =>
    runEvents totalBytes (feedFragment (recordProgress totalBytes st sz) text) rest

def initLoad : LoadState := ⟨[], none, initAgg, [], 0, []⟩

/-- One whole load: a non-ok HTTP response throws before the loop starts
(LoadError); otherwise the read loop runs over the event sequence. -/
def runLoad (ok : Bool) (totalBytes : Nat) (events : List ReadEvent) : LoadResult :=
  if ok then runEvents totalBytes initLoad events
  else { final := initLoad, outcome := .loadError }

/-! ## Selection state (legend year toggles, chart date clicks, map clicks)

Module-level selection state of city.js: the activeYears Set, the
selectedDate variable, and which years of markers are on the map.
Dates are identified by their epoch milliseconds (getTime comparison). -/

structure UIState where
  activeYears : List Int
  selectedDate : Option Int
  visibleYears : List Int
deriving DecidableEq

inductive UIEvent where
  | toggleYear : Int → UIEvent
  | chartClickPoint : Int → UIEvent
  | chartClickMiss : UIEvent
  | mapBackgroundClick : UIEvent

/-- toggleYear(year): remember whether the year was active, clear the
set and re-add every marker; when it was not active, select it and
remove the markers of every other year. -/
def toggleYearStep (allYears : List Int) (st : UIState) (year : Int) : UIState :=
  let wasActive := decide (year ∈ st.activeYears)
  if wasActive then
    { st with activeYears := [], visibleYears := allYears }
  else
    { st with activeYears := [year], visibleYears := allYears.filter (fun y => y = year) }

/-- One user interaction:
a legend year toggle; a chart click hitting a point (toggles the
selected date); a chart click hitting no point (clears the selected
date); a map background click (clears the date, clears the year set and
re-adds every marker).  Chart and marker restyling is presentational and
not part of the state. -/
def uiStep (allYears : List Int) (st : UIState) : UIEvent → UIState
  | .toggleYear y => toggleYearStep allYears st y
  | .chartClickPoint d =>
    if st.selectedDate = some d then { st with selectedDate := none }
    else { st with selectedDate := some d }
  | .chartClickMiss => { st with selectedDate := none }
  | .mapBackgroundClick =>
    { st with selectedDate := none, activeYears := [], visibleYears := allYears }

/-- The state right after a load: no year filtered, no date selected,
every year of markers on the map. -/
def uiInit (allYears : List Int) : UIState := ⟨[], none, allYears⟩

def uiRun (allYears : List Int) (evs : List UIEvent) : UIState :=
  evs.foldl (uiStep allYears) (uiInit allYears)

/-! ## Fuzzy location resolver

The directory resource cities.json is produced by tooling outside this
tree.  Its entry shape is modelled from the spec (name, region
\x7bcode,name\x7d, country \x7bcode,name\x7d, filename) and confirmed by the
overview page src/www/js/index.js, which reads entry.city as the name
string and entry.state.name / entry.country.name / entry.data_file.filename
beside it.  city.js, however, reads the region and country of an entry
through entry.city.state and entry.city.country — properties of the
string entry.city — which in JavaScript are undefined; strProp makes
each such access explicit. -/

structure RegionInfo where
  code : Option String
  name : Option String
deriving DecidableEq

/-- One entry of cities.json (fields not read by the resolver omitted). -/
structure CityEntry where
  city : String
  state : Option RegionInfo
  country : Option RegionInfo
deriving DecidableEq

/-- Reading a named property off a JS string value yields undefined.
Every access the resolver performs on entry.city beyond using it as a
string goes through this definition. -/
def strProp (α : Type) (_s : String) (_property : String) : Option α := none

structure ParsedQuery where
  city : String
  state : Option String
  country : Option String
deriving DecidableEq

/-- parseLocationQuery: split the trimmed query on commas; three parts
are city, state, country; two parts are disambiguated against the sets
of known state and country identifiers collected from the directory
(via entry.city.state / entry.city.country, hence via strProp); one part
is a city-only query; anything else is a parse failure. -/
def parseLocationQuery (query : String) (citiesData : List CityEntry) : Option ParsedQuery :=
  if query = "" then none
  else
    let parts := (splitOnChar ',' (jsTrim query.data)).map
      (fun p => String.mk (jsTrim p))
    match parts with
    | [c, s, co] => some { city := c, state := some s, country := some co }
    | [cityPart, q] =>
      let id := jsToLower q
      let stateIds := citiesData.foldl (fun acc c =>
        let fromCode := match (strProp RegionInfo c.city "state").bind RegionInfo.code with
          | some v => [jsToLower v] | none => []
        let fromName := match (strProp RegionInfo c.city "state").bind RegionInfo.name with
          | some v => [jsToLower v] | none => []
        acc ++ fromCode ++ fromName) []
      let countryIds := citiesData.foldl (fun acc c =>
        let fromCode := match (strProp RegionInfo c.city "country").bind RegionInfo.code with
          | some v => [jsToLower v] | none => []
        let fromName := match (strProp RegionInfo c.city "country").bind RegionInfo.name with
          | some v => [jsToLower v] | none => []
        acc ++ fromCode ++ fromName) []
      let isState := stateIds.contains id
      let isCountry := countryIds.contains id
      if isCountry && !isState then some { city := cityPart, state := none, country := some id }
      else some { city := cityPart, state := some id, country := none }
    | [c] => some { city := c, state := none, country := none }
    | _ => none

/-- The inner cell of the Levenshtein matrix loop: one new row from the
previous row, walking the characters of a.  p0 is the diagonal
matrix[i-1][j-1], the head of the remaining previous row is the upper
matrix[i-1][j], and left is the cell just written, matrix[i][j-1]. -/
def levRow (bc : Char) : List Char → List Nat → Nat → List Nat
  | ac :: as, p0 :: prest, left =>
    let up := match prest with | u :: _ => u | [] => 0
    let cell := if bc = ac then p0 else Nat.min (Nat.min p0 left) up + 1
    cell :: levRow bc as prest cell
  | _, _, _ => []

/-- levenshteinDistance: the dynamic-programming matrix of the source,
row by row; row 0 is 0..a.length and row i starts with i. -/
def levenshteinDistance (a b : String) : Nat :=
  let as := a.data
  let bs := b.data
  if as.length = 0 then bs.length
  else if bs.length = 0 then as.length
  else
    let row0 := List.range (as.length + 1)
    let final := bs.foldl (fun (acc : List Nat × Nat) bc =>
      let i := acc.2 + 1
      (i :: levRow bc as acc.1 i, i)) (row0, 0)
    final.1.getLastD 0

/-- One suggestion tuple the failure branch builds from a scored entry:
\x7b city: s.city.city.name, state: s.city.city.state?.code,
country: s.city.city.country?.code \x7d — all read off the string
entry.city, hence all undefined. -/
structure Suggestion where
  city : Option String
  state : Option String
  country : Option String
deriving DecidableEq

inductive MatchResult where
  | invalidQuery : MatchResult
  | noMatch : List Suggestion → MatchResult
  | found : CityEntry → Nat → MatchResult
deriving DecidableEq

/-- The weighted score of one directory entry: twice the city-name
distance, plus (when a state qualifier was supplied and truthy) the
minimum of the distances to entry.city.state?.code and
entry.city.state?.name — both undefined, hence compared as "" — and
symmetrically for a country qualifier. -/
def entryScore (q : ParsedQuery) (e : CityEntry) : Nat :=
  let cityDist := levenshteinDistance (jsToLower q.city) (jsToLower e.city)
  let stateAdd := match q.state with
    | some s =>
      if s ≠ "" then
        let codeDist := levenshteinDistance (jsToLower s)
          (jsToLower (((strProp RegionInfo e.city "state").bind RegionInfo.code).getD ""))
        let nameDist := levenshteinDistance (jsToLower s)
          (jsToLower (((strProp RegionInfo e.city "state").bind RegionInfo.name).getD ""))
        Nat.min codeDist nameDist
      else 0
    | none => 0
  let countryAdd := match q.country with
    | some s =>
      if s ≠ "" then
        let codeDist := levenshteinDistance (jsToLower s)
          (jsToLower (((strProp RegionInfo e.city "country").bind RegionInfo.code).getD ""))
        let nameDist := levenshteinDistance (jsToLower s)
          (jsToLower (((strProp RegionInfo e.city "country").bind RegionInfo.name).getD ""))
        Nat.min codeDist nameDist
      else 0
    | none => 0
  cityDist * 2 + stateAdd + countryAdd

/-- Stable ascending insertion by score: scored.sort((a,b) =>
a.totalDistance - b.totalDistance), which JS guarantees to be stable, so
equal scores keep directory order. -/
def insertByScore (p : CityEntry × Nat) : List (CityEntry × Nat) → List (CityEntry × Nat)
  | [] => [p]
  | q :: t => if q.2 < p.2 then q :: insertByScore p t else p :: q :: t

def sortByScore (l : List (CityEntry × Nat)) : List (CityEntry × Nat) :=
  l.foldr insertByScore []

def suggestionOf (e : CityEntry) : Suggestion :=
  { city := strProp String e.city "name",
    state := (strProp RegionInfo e.city "state").bind RegionInfo.code,
    country := (strProp RegionInfo e.city "country").bind RegionInfo.code }

/-- findBestMatchingCity: score every entry, keep the first minimum
(strict-less update), and either return it with its distance when it
does not exceed maxDistance, or sort the scored list ascending (stable)
and return the first three entries mapped to suggestion tuples. -/
def findBestMatchingCity (pq : Option ParsedQuery) (citiesData : List CityEntry)
    (maxDistance : Nat) : MatchResult :=
  match pq with
  | none => .invalidQuery
  | some q =>
    if q.city = "" then .invalidQuery
    else
      let scored := citiesData.map (fun e => (e, entryScore q e))
      let best := scored.foldl (fun acc p =>
        match acc with
        | none => some p
        | some b => if p.2 < b.2 then some p else some b) none
      match best with
      | none => .noMatch []
      | some b =>
        if b.2 > maxDistance then
          .noMatch (((sortByScore scored).take 3).map (fun p => suggestionOf p.1))
        else .found b.1 b.2

/-! ## Spec-side observers used to state the claims -/

/-- The pre-date checks of the row filter, in source order: status is
the success sentinel, attribution is the required source string, and
capture date, identifier and both coordinates are truthy.  A row passing
these checks (and not deduplicated) enters the dedup set. -/
def staticChecks (r : Row) : Bool :=
  r.status.eqStr "OK" && r.copyright_info.eqStr "© Google" &&
  r.capture_date.truthy && r.pano_id.truthy && r.pano_lat.truthy && r.pano_lon.truthy

/-- No row among the earlier rows passed the pre-date checks with the
same identifier. -/
def noEarlierEntrant (earlier : List Row) (r : Row) : Bool :=
  earlier.all (fun p => !(staticChecks p && decide (p.pano_id = r.pano_id)))

/-- The marker a row creates when accepted (its capture date is then
known to parse; the getD default is never used under that guard). -/
def mkMarker (r : Row) : Marker :=
  { lat := r.pano_lat, lon := r.pano_lon,
    captureDate := (jsNewDate r.capture_date).getD ⟨1970, 1, 1⟩, panoId := r.pano_id }

/-- The markers predicted row by row from the row prefix alone: a row
yields a marker iff it passes the pre-date checks, its capture date
parses, and no earlier row passed the pre-date checks with the same
identifier — whether or not that earlier row had a parseable date. -/
def specMarkers (earlier : List Row) : List Row → List Marker
  | [] => []
  | r :: rs =>
    (if staticChecks r && noEarlierEntrant earlier r && (jsNewDate r.capture_date).isSome
     then [mkMarker r] else []) ++ specMarkers (earlier ++ [r]) rs

/-- All checks of claim C2 as written: success status, attribution,
identifier present, coordinates present and numeric, and the capture
date parses to a valid calendar date. -/
def claimC2Checks (r : Row) : Bool :=
  r.status.eqStr "OK" && r.copyright_info.eqStr "© Google" && r.pano_id.truthy &&
  (match r.pano_lat with | .num _ => true | _ => false) &&
  (match r.pano_lon with | .num _ => true | _ => false) &&
  (jsNewDate r.capture_date).isSome

/-- Per-row acceptance flags of claim C2 exactly as the claim words it:
a row yields a ValidRecord iff all its checks pass and no earlier row
with the same identifier was itself accepted. -/
def claimC2FlagsAux : List (Row × Bool) → List Row → List Bool
  | _, [] => []
  | earlier, r :: rs =>
    let f := claimC2Checks r &&
      earlier.all (fun pb => !(pb.2 && decide (pb.1.pano_id = r.pano_id)))
    f :: claimC2FlagsAux (earlier ++ [(r, f)]) rs

def claimC2Flags (rows : List Row) : List Bool := claimC2FlagsAux [] rows

/-- A table in which every row is duplicated exactly once. -/
def dupEachRow : List Row → List Row
  | [] => []
  | r :: rs => r :: r :: dupEachRow rs

/-- The compressed chunk sizes the progress tap sees before the stream
fails (all of them when it never fails). -/
def chunksBeforeFailure : List ReadEvent → List Nat
  | [] => []
  | .decodeFail :: _ => []
  | .chunk sz _ :: rest => sz :: chunksBeforeFailure rest

def hasFailure : List ReadEvent → Bool
  | [] => false
  | .decodeFail :: _ => true
  | .chunk _ _ :: rest => hasFailure rest

/-- The progress value reported after receivedBytes compressed bytes:
min((receivedBytes / totalBytes) * 100, 99). -/
def pctOf (totalBytes received : Nat) : Rat :=
  min ((received : Rat) / (totalBytes : Rat) * 100) 99

/-- The in-flight progress values for a run of chunk sizes, starting
from an already-received byte count. -/
def pcts (totalBytes : Nat) : Nat → List Nat → List Rat
  | _, [] => []
  | base, sz :: rest => pctOf totalBytes (base + sz) :: pcts totalBytes (base + sz) rest

/-- The loop state reached by processing a list of (size, fragment)
pulls and nothing else: no final flush, no completion report.  This is
the state aggregated from exactly the data that arrived. -/
def pureChunkRun (totalBytes : Nat) (chunks : List (Nat × List Char)) : LoadState :=
  chunks.foldl (fun s p => feedFragment (recordProgress totalBytes s p.1) p.2) initLoad

/-! ## Concrete inputs -/

/-- The fixed header row of the data files. -/
def dataHeader : String :=
  "query_lat,query_lon,query_timestamp,pano_lat,pano_lon,pano_id,capture_date,copyright_info,status"

/-- One fully valid data row whose quoted identifier field contains an
embedded newline. -/
def c1RowText : String := "1,2,t,3,4,\"P\n1\",2023-09-01,© Google,OK\n"

def c1WholeText : List Char := (dataHeader ++ "\n" ++ c1RowText).data

/-- The same text split in two fragments; the boundary falls inside the
quoted field, right after its embedded newline. -/
def c1Frag1 : List Char := (dataHeader ++ "\n1,2,t,3,4,\"P\n").data

def c1Frag2 : List Char := "1\",2023-09-01,© Google,OK\n".data

def c1Whole : LoadResult := runLoad true 64 [.chunk 64 c1WholeText]

def c1Chunked : LoadResult := runLoad true 64 [.chunk 50 c1Frag1, .chunk 14 c1Frag2]

/-- A row that passes every pre-date check but whose capture date does
not parse. -/
def rBadDate : Row :=
  { pano_lat := .num 1, pano_lon := .num 2, pano_id := .str "X",
    capture_date := .str "garbage", copyright_info := .str "© Google", status := .str "OK" }

/-- A fully valid row bearing the same identifier as rBadDate. -/
def rGoodDate : Row :=
  { pano_lat := .num 1, pano_lon := .num 2, pano_id := .str "X",
    capture_date := .str "2023-09-01", copyright_info := .str "© Google", status := .str "OK" }

/-- A fully valid row with a different identifier. -/
def rOtherId : Row :=
  { pano_lat := .num 3, pano_lon := .num 4, pano_id := .str "Y",
    capture_date := .str "2021-05-02", copyright_info := .str "© Google", status := .str "OK" }

def exC2 : List Row := [rBadDate, rGoodDate]

/-- The directory entry of the resolver determinism scenario, in the
entry shape of the directory resource. -/
def seattleEntry : CityEntry :=
  { city := "Seattle",
    state := some { code := some "WA", name := some "Washington" },
    country := some { code := some "US", name := some "United States" } }

def dirSeattle : List CityEntry := [seattleEntry]

def entryZz : CityEntry := { city := "Zz", state := none, country := none }

def entryZzza : CityEntry := { city := "Zzza", state := none, country := none }

def entryQq : CityEntry := { city := "Qqqqqq", state := none, country := none }

def entryZzzab : CityEntry := { city := "Zzzab", state := none, country := none }

/-- A directory on which the query Zzzzzz scores 8, 6, 12, 6 in order,
so the minimum (6) exceeds the threshold 3 and the failure branch runs. -/
def dirFar : List CityEntry := [entryZz, entryZzza, entryQq, entryZzzab]

/-! ## Helper lemmas about the row pass -/

theorem boolFilterIdentity (a b c d e f m : Bool) :
    (!a || !b || !c || !d || !e || !f || m) = !(a && b && c && d && e && f && !m) := by
  revert a b c d e f m
  decide

/-- The row filter condition, re-expressed through the pre-date checks
and the dedup membership test. -/
theorem rowRejected_eq (seen : List Cell) (r : Row) :
    rowRejected seen r = !(staticChecks r && !(decide (r.pano_id ∈ seen))) := by
  unfold rowRejected staticChecks
  exact boolFilterIdentity _ _ _ _ _ _ _

theorem processRow_of_rejected (st : AggState) (r : Row)
    (h : rowRejected st.processedPanos r = true) : processRow st r = st := by
  unfold processRow
  simp [h]

theorem rowRejected_of_mem (seen : List Cell) (r : Row) (h : r.pano_id ∈ seen) :
    rowRejected seen r = true := by
  simp [rowRejected, h]

theorem processRow_processed (st : AggState) (r : Row) :
    (processRow st r).processedPanos = st.processedPanos ∨
    (processRow st r).processedPanos = st.processedPanos ++ [r.pano_id] := by
  unfold processRow
  by_cases h : rowRejected st.processedPanos r
  · simp [h]
  · cases hd : jsNewDate r.capture_date <;> simp [h, hd]

theorem mem_processed_mono (st : AggState) (r : Row) (x : Cell)
    (hx : x ∈ st.processedPanos) : x ∈ (processRow st r).processedPanos := by
  rcases processRow_processed st r with h | h <;> rw [h] <;> simp [hx]

theorem processRow_mem_self (st : AggState) (r : Row)
    (h : rowRejected st.processedPanos r = false) :
    r.pano_id ∈ (processRow st r).processedPanos := by
  unfold processRow
  cases hd : jsNewDate r.capture_date <;> simp [h, hd]

/-- Processing the same row twice in a row is the same as processing it
once: an accepted row enters the dedup set (even when its date fails to
parse), so its immediate duplicate is rejected; a rejected row is
rejected again. -/
theorem processRow_idem (st : AggState) (r : Row) :
    processRow (processRow st r) r = processRow st r := by
  by_cases h : rowRejected st.processedPanos r
  · rw [processRow_of_rejected st r h, processRow_of_rejected st r h]
  · have h0 : rowRejected st.processedPanos r = false := by
      simpa using h
    exact processRow_of_rejected _ r
      (rowRejected_of_mem _ r (processRow_mem_self st r h0))

theorem processRows_cons (st : AggState) (r : Row) (rs : List Row) :
    processRows st (r :: rs) = processRows (processRow st r) rs := rfl

theorem processRows_dupEach (rows : List Row) :
    ∀ st : AggState, processRows st (dupEachRow rows) = processRows st rows := by
  induction rows with
  | nil => intro st; rfl
  | cons r rs ih =>
    intro st
    show processRows (processRow (processRow st r) r) (dupEachRow rs) = _
    rw [processRow_idem]
    exact ih (processRow st r)

end GsvCity

namespace GsvCity

/-! ## Claim theorems (selection, resolver, dedup idempotence) -/

/-- C5: from the idle state, toggling year y leaves exactly y selected;
toggling y again returns the state to idle; toggling y then y2 with
y2 different from y leaves exactly y2 selected.  Each transition is one
pure function application, so no intermediate state exists between the
calls. -/
theorem toggleYear_selection_law (allYears : List Int) (y y2 : Int) (hne : y2 ≠ y) :
    (uiStep allYears (uiInit allYears) (.toggleYear y)).activeYears = [y] ∧
    uiStep allYears (uiStep allYears (uiInit allYears) (.toggleYear y)) (.toggleYear y) =
      uiInit allYears ∧
    (uiStep allYears (uiStep allYears (uiInit allYears) (.toggleYear y))
      (.toggleYear y2)).activeYears = [y2] := by
  refine ⟨?_, ?_, ?_⟩ <;> simp [uiStep, toggleYearStep, uiInit, hne]

theorem toggleYear_selection_law_witness :
    (2021 : Int) ≠ 2020 ∧
    ((uiStep [2020, 2021] (uiInit [2020, 2021]) (.toggleYear 2020)).activeYears = [2020] ∧
     uiStep [2020, 2021] (uiStep [2020, 2021] (uiInit [2020, 2021]) (.toggleYear 2020))
       (.toggleYear 2020) = uiInit [2020, 2021] ∧
     (uiStep [2020, 2021] (uiStep [2020, 2021] (uiInit [2020, 2021]) (.toggleYear 2020))
       (.toggleYear 2021)).activeYears = [2021]) :=
  ⟨by decide, toggleYear_selection_law [2020, 2021] 2020 2021 (by decide)⟩

/-- C6 counterexample: the interaction sequence toggle year 2020 then
click the chart point of date 5 reaches a state in which a year
selection and a date selection are active at the same time, refuting
that exactly one SelectionKey is active in every reachable state. -/
theorem year_and_date_simultaneously_active :
    (uiRun [2020, 2021] [.toggleYear 2020, .chartClickPoint 5]).activeYears ≠ [] ∧
    (uiRun [2020, 2021] [.toggleYear 2020, .chartClickPoint 5]).selectedDate ≠ none := by
  decide

/-- C6 as amended: the year filter and the date selection are
independent module variables; every reachable state has at most one
active year (and, by type, at most one selected date), a state with
both a year and a date active is reachable, and a map background click
clears both at once. -/
theorem selection_variables_shape (allYears : List Int) (evs : List UIEvent) :
    (uiRun allYears evs).activeYears.length ≤ 1 ∧
    uiRun allYears (evs ++ [.mapBackgroundClick]) =
      { activeYears := [], selectedDate := none, visibleYears := allYears } := by
  constructor
  · have key : ∀ (l : List UIEvent) (st : UIState), st.activeYears.length ≤ 1 →
        (l.foldl (uiStep allYears) st).activeYears.length ≤ 1 := by
      intro l
      induction l with
      | nil => intro st h; exact h
      | cons e t ih =>
        intro st h
        refine ih _ ?_
        cases e with
        | toggleYear y =>
          unfold uiStep toggleYearStep
          by_cases hy : y ∈ st.activeYears <;> simp [hy]
        | chartClickPoint d =>
          unfold uiStep
          by_cases hd : st.selectedDate = some d <;> simp [hd, h]
        | chartClickMiss => exact h
        | mapBackgroundClick => simp [uiStep]
    exact key evs (uiInit allYears) (by simp [uiInit])
  · unfold uiRun
    rw [List.foldl_append]
    rfl

/-- C7: against a directory whose exact entry has city Seattle, region
code WA and country code US, the query Seattle, WA resolves to that
entry but with score 2, not 0: the scorer reads the region of the entry
through entry.city.state, a property of the string entry.city, which is
undefined, so the qualifier wa is compared against the empty string
(distance 2) instead of the entry code WA (distance 0). -/
theorem seattle_exact_entry_scores_two :
    findBestMatchingCity (parseLocationQuery "Seattle, WA" dirSeattle) dirSeattle 3 =
      .found seattleEntry 2 := by
  decide

/-- C8: when the minimum score exceeds the threshold, the failure branch
does slice the three lowest-scoring entries from the stably sorted list,
but the suggestion tuples it builds read name, region and country off
the string entry.city, so every suggestion is a tuple of three undefined
fields and the selected entries are not identified.  On dirFar (scores
8, 6, 12, 6) the result is three empty tuples. -/
theorem threshold_failure_suggestions_lose_entries :
    findBestMatchingCity (parseLocationQuery "Zzzzzz" dirFar) dirFar 3 =
      .noMatch [⟨none, none, none⟩, ⟨none, none, none⟩, ⟨none, none, none⟩] := by
  decide

theorem any_eq_not_all_not {α : Type _} (l : List α) (f : α → Bool) :
    l.any f = !(l.all fun x => !(f x)) := by
  induction l with
  | nil => rfl
  | cons x t ih => simp [List.any_cons, List.all_cons, ih, Bool.not_and, Bool.not_not]

/-- Closed form of the marker list built by processRows: each marker is
predicted from the row prefix alone, through the invariant that the
dedup set holds exactly the identifiers of earlier rows that passed the
pre-date checks. -/
theorem processRows_markers_spec :
    ∀ (rows : List Row) (st : AggState) (earlier : List Row),
      (∀ idc : Cell, decide (idc ∈ st.processedPanos) =
        earlier.any (fun p => staticChecks p && decide (p.pano_id = idc))) →
      (processRows st rows).markers = st.markers ++ specMarkers earlier rows := by
  intro rows
  induction rows with
  | nil => intro st earlier _; simp [processRows, specMarkers]
  | cons r rs ih =>
    intro st earlier hinv
    rw [processRows_cons]
    cases hsc : staticChecks r with
    | false =>
      have hrej : rowRejected st.processedPanos r = true := by
        rw [rowRejected_eq, hsc]; rfl
      rw [processRow_of_rejected st r hrej]
      have hspec : specMarkers earlier (r :: rs) = specMarkers (earlier ++ [r]) rs := by
        simp [specMarkers, hsc]
      rw [hspec]
      apply ih st (earlier ++ [r])
      intro idc
      rw [hinv idc]
      simp [List.any_append, hsc]
    | true =>
      by_cases hm : r.pano_id ∈ st.processedPanos
      · have hrej := rowRejected_of_mem st.processedPanos r hm
        rw [processRow_of_rejected st r hrej]
        have hany : earlier.any
            (fun p => staticChecks p && decide (p.pano_id = r.pano_id)) = true := by
          rw [← hinv r.pano_id]; simp [hm]
        have hno : noEarlierEntrant earlier r = false := by
          have h2 := any_eq_not_all_not earlier
            (fun p => staticChecks p && decide (p.pano_id = r.pano_id))
          rw [hany] at h2
          unfold noEarlierEntrant
          cases hall : (earlier.all fun p => !(staticChecks p && decide (p.pano_id = r.pano_id)))
          · rfl
          · rw [hall] at h2; exact absurd h2 (by decide)
        have hspec : specMarkers earlier (r :: rs) = specMarkers (earlier ++ [r]) rs := by
          simp [specMarkers, hno]
        rw [hspec]
        apply ih st (earlier ++ [r])
        intro idc
        by_cases hid : r.pano_id = idc
        · subst hid
          simp [List.any_append, hsc, hm]
        · rw [hinv idc]
          simp [List.any_append, hsc, hid]
      · have hrej : rowRejected st.processedPanos r = false := by
          rw [rowRejected_eq, hsc]
          simp [hm]
        have hany : earlier.any
            (fun p => staticChecks p && decide (p.pano_id = r.pano_id)) = false := by
          rw [← hinv r.pano_id]; simp [hm]
        have hno : noEarlierEntrant earlier r = true := by
          have h2 := any_eq_not_all_not earlier
            (fun p => staticChecks p && decide (p.pano_id = r.pano_id))
          rw [hany] at h2
          unfold noEarlierEntrant
          cases hall : (earlier.all fun p => !(staticChecks p && decide (p.pano_id = r.pano_id)))
          · rw [hall] at h2; exact absurd h2 (by decide)
          · rfl
        have hinv2 : ∀ idc : Cell, decide (idc ∈ st.processedPanos ++ [r.pano_id]) =
            (earlier ++ [r]).any (fun p => staticChecks p && decide (p.pano_id = idc)) := by
          intro idc
          by_cases hid : r.pano_id = idc
          · subst hid
            simp [List.any_append, hsc]
          · rw [List.any_append]
            have : decide (idc ∈ st.processedPanos ++ [r.pano_id]) =
                decide (idc ∈ st.processedPanos) := by
              simp [List.mem_append, Ne.symm hid]
            rw [this, hinv idc]
            simp [hsc, hid]
        cases hd : jsNewDate r.capture_date with
        | none =>
          have hstep : processRow st r =
              { st with processedPanos := st.processedPanos ++ [r.pano_id] } := by
            unfold processRow; simp [hrej, hd]
          rw [hstep]
          have hspec : specMarkers earlier (r :: rs) = specMarkers (earlier ++ [r]) rs := by
            simp [specMarkers, hd]
          rw [hspec]
          exact ih _ (earlier ++ [r]) hinv2
        | some d =>
          have hstep : processRow st r =
              { st with processedPanos := st.processedPanos ++ [r.pano_id],
                        markers := st.markers ++
                          [{ lat := r.pano_lat, lon := r.pano_lon,
                             captureDate := d, panoId := r.pano_id }],
                        temporalMap := bumpTemporal st.temporalMap (isoDay d),
                        validPoints := st.validPoints ++ [(r.pano_lat, r.pano_lon)] } := by
            unfold processRow; simp [hrej, hd]
          rw [hstep]
          have hspec : specMarkers earlier (r :: rs) =
              { lat := r.pano_lat, lon := r.pano_lon,
                captureDate := d, panoId := r.pano_id } :: specMarkers (earlier ++ [r]) rs := by
            simp [specMarkers, hsc, hno, hd, mkMarker]
          rw [hspec, ih _ (earlier ++ [r]) hinv2]
          simp

/-- A marker predicted by specMarkers never bears the identifier of an
earlier row that passed the pre-date checks. -/
theorem specMarkers_panoId_ne (p : Row) (hsc : staticChecks p = true) :
    ∀ (rows earlier : List Row), p ∈ earlier →
      ∀ m ∈ specMarkers earlier rows, m.panoId ≠ p.pano_id := by
  intro rows
  induction rows with
  | nil => intro earlier _ m hm; simp [specMarkers] at hm
  | cons r rs ih =>
    intro earlier hp m hm
    simp only [specMarkers] at hm
    rcases List.mem_append.mp hm with h1 | h2
    · by_cases hc : (staticChecks r && noEarlierEntrant earlier r &&
          (jsNewDate r.capture_date).isSome) = true
      · rw [if_pos hc] at h1
        have hme : m = mkMarker r := by simpa using h1
        have hno : noEarlierEntrant earlier r = true := by
          have := hc
          simp [Bool.and_eq_true] at this
          exact this.1.2
        have hne : p.pano_id ≠ r.pano_id := by
          have hall := (List.all_eq_true.mp hno) p hp
          simp [hsc] at hall
          intro he
          exact absurd (decide_eq_true he) (by simpa using hall)
        subst hme
        simpa [mkMarker] using fun he => hne he.symm
      · rw [if_neg hc] at h1
        simp at h1
    · exact ih (earlier ++ [r]) (List.mem_append_left _ hp) m h2

/-- The identifiers of the markers predicted by specMarkers are
pairwise distinct. -/
theorem specMarkers_ids_nodup :
    ∀ (rows earlier : List Row), ((specMarkers earlier rows).map Marker.panoId).Nodup := by
  intro rows
  induction rows with
  | nil => intro earlier; simp [specMarkers]
  | cons r rs ih =>
    intro earlier
    by_cases hc : (staticChecks r && noEarlierEntrant earlier r &&
        (jsNewDate r.capture_date).isSome) = true
    · have hsc : staticChecks r = true := by
        simp [Bool.and_eq_true] at hc
        exact hc.1.1
      simp only [specMarkers, if_pos hc, List.singleton_append, List.map_cons, List.nodup_cons]
      constructor
      · intro hmem
        rcases List.mem_map.mp hmem with ⟨m, hmspec, hmid⟩
        have := specMarkers_panoId_ne r hsc rs (earlier ++ [r])
          (List.mem_append_right _ (List.mem_singleton.mpr rfl)) m hmspec
        rw [mkMarker] at hmid
        exact this hmid
      · exact ih (earlier ++ [r])
    · simp only [specMarkers, if_neg hc, List.nil_append]
      exact ih (earlier ++ [r])

/-- C2 as amended: a row yields a ValidRecord (its marker) iff its
status is OK, its attribution is the required string, its capture date,
identifier and coordinates are truthy, its capture date parses to a
valid calendar date, and no earlier row in file order with the same
identifier already passed the pre-date checks — whether or not that
earlier row had a parseable date (it entered the dedup set before date
validation).  Each identifier still determines at most one ValidRecord
and later duplicates are discarded without error. -/
theorem validRecord_characterization (rows : List Row) :
    (processRows initAgg rows).markers = specMarkers [] rows ∧
    ((processRows initAgg rows).markers.map Marker.panoId).Nodup := by
  have h := processRows_markers_spec rows initAgg [] (by intro idc; simp [initAgg])
  rw [h]
  refine ⟨by simp [initAgg], ?_⟩
  have := specMarkers_ids_nodup rows []
  simpa [initAgg] using this

/-- C2 as written fails on the code: in exC2 the first row passes every
pre-date check but its capture date does not parse; the dedup set is
updated anyway, so the claim predicts exactly one ValidRecord (the fully
valid second row), while the code produces none. -/
theorem claimC2_fails_on_dedup_before_date :
    claimC2Flags exC2 = [false, true] ∧ (processRows initAgg exC2).markers = [] := by
  constructor
  · decide
  · decide

/-- C3: ingesting a table with every row duplicated exactly once yields
the same ValidRecord count, the same YearBucket membership and the same
TemporalAggregate as ingesting the table once. -/
theorem dedup_reingest_idempotent (rows : List Row) :
    (processRows initAgg (dupEachRow rows)).markers.length =
      (processRows initAgg rows).markers.length ∧
    (∀ y : Int, yearBucket (processRows initAgg (dupEachRow rows)) y =
      yearBucket (processRows initAgg rows) y) ∧
    (processRows initAgg (dupEachRow rows)).temporalMap =
      (processRows initAgg rows).temporalMap := by
  rw [processRows_dupEach rows initAgg]
  exact ⟨rfl, fun _ => rfl, rfl⟩

theorem processRow_noop_of_mem (st : AggState) (r : Row)
    (hm : r.pano_id ∈ st.processedPanos) : processRow st r = st :=
  processRow_of_rejected st r (rowRejected_of_mem _ _ hm)

/-- Once an identifier is in the dedup set, every row bearing it is a
strict no-op, so removing those rows changes nothing at all. -/
theorem processRows_filter_of_mem (x : Cell) :
    ∀ (rows : List Row) (st : AggState), x ∈ st.processedPanos →
      processRows st (rows.filter (fun r => r.pano_id ≠ x)) = processRows st rows := by
  intro rows
  induction rows with
  | nil => intro st _; rfl
  | cons r rs ih =>
    intro st hx
    by_cases h : r.pano_id = x
    · have hnoop : processRow st r = st := processRow_noop_of_mem st r (h ▸ hx)
      have hfilter : (r :: rs).filter (fun r => r.pano_id ≠ x) =
          rs.filter (fun r => r.pano_id ≠ x) := by
        simp [List.filter_cons, h]
      rw [hfilter, processRows_cons, hnoop]
      exact ih st hx
    · have hfilter : (r :: rs).filter (fun r => r.pano_id ≠ x) =
          r :: rs.filter (fun r => r.pano_id ≠ x) := by
        simp [List.filter_cons, h]
      rw [hfilter, processRows_cons, processRows_cons]
      exact ih (processRow st r) (mem_processed_mono st r x hx)

theorem processRow_markers (st : AggState) (r : Row) :
    (processRow st r).markers = st.markers ∨
    ∃ m : Marker, m.panoId = r.pano_id ∧ (processRow st r).markers = st.markers ++ [m] := by
  unfold processRow
  by_cases h : rowRejected st.processedPanos r
  · simp [h]
  · cases hd : jsNewDate r.capture_date with
    | none => simp [h, hd]
    | some d =>
      refine Or.inr
        ⟨{ lat := r.pano_lat, lon := r.pano_lon, captureDate := d, panoId := r.pano_id },
         rfl, ?_⟩
      simp [h, hd]

/-- Every marker identifier comes from the starting markers or from an
ingested row. -/
theorem marker_id_from_rows :
    ∀ (rows : List Row) (st : AggState) (m : Marker),
      m ∈ (processRows st rows).markers →
      m ∈ st.markers ∨ m.panoId ∈ rows.map Row.pano_id := by
  intro rows
  induction rows with
  | nil => intro st m hm; exact Or.inl hm
  | cons r rs ih =>
    intro st m hm
    rw [processRows_cons] at hm
    rcases ih (processRow st r) m hm with h | h
    · rcases processRow_markers st r with he | ⟨m0, hid, he⟩
      · rw [he] at h; exact Or.inl h
      · rw [he] at h
        rcases List.mem_append.mp h with h1 | h2
        · exact Or.inl h1
        · have : m = m0 := by simpa using h2
          subst this
          exact Or.inr (by simp [hid])
    · refine Or.inr ?_
      simp only [List.map_cons, List.mem_cons]
      exact Or.inr h

theorem processed_id_from_rows :
    ∀ (rows : List Row) (st : AggState) (idc : Cell),
      idc ∈ (processRows st rows).processedPanos →
      idc ∈ st.processedPanos ∨ idc ∈ rows.map Row.pano_id := by
  intro rows
  induction rows with
  | nil => intro st idc h; exact Or.inl h
  | cons r rs ih =>
    intro st idc h
    rw [processRows_cons] at h
    rcases ih (processRow st r) idc h with h1 | h1
    · rcases processRow_processed st r with he | he
      · rw [he] at h1; exact Or.inl h1
      · rw [he] at h1
        rcases List.mem_append.mp h1 with h2 | h2
        · exact Or.inl h2
        · have : idc = r.pano_id := by simpa using h2
          exact Or.inr (by simp [this])
    · refine Or.inr ?_
      simp only [List.map_cons, List.mem_cons]
      exact Or.inr h1

/-- Two states that agree on markers, temporal map and valid points and
whose dedup sets agree on every identifier other than x process any
x-free row list to states with equal markers, temporal map and valid
points. -/
theorem processRows_ignore_extra_id (x : Cell) :
    ∀ (rows : List Row) (st1 st2 : AggState),
      (∀ r ∈ rows, r.pano_id ≠ x) →
      st1.markers = st2.markers → st1.temporalMap = st2.temporalMap →
      st1.validPoints = st2.validPoints →
      (∀ idc : Cell, idc ≠ x → (idc ∈ st1.processedPanos ↔ idc ∈ st2.processedPanos)) →
      (processRows st1 rows).markers = (processRows st2 rows).markers ∧
      (processRows st1 rows).temporalMap = (processRows st2 rows).temporalMap ∧
      (processRows st1 rows).validPoints = (processRows st2 rows).validPoints := by
  intro rows
  induction rows with
  | nil => intro st1 st2 _ h1 h2 h3 _; exact ⟨h1, h2, h3⟩
  | cons r rs ih =>
    intro st1 st2 hx h1 h2 h3 h4
    have hrx : r.pano_id ≠ x := hx r (List.mem_cons_self r rs)
    have hxs : ∀ r₀ ∈ rs, r₀.pano_id ≠ x := fun r₀ hr₀ => hx r₀ (List.mem_cons_of_mem r hr₀)
    have hrejeq : rowRejected st1.processedPanos r = rowRejected st2.processedPanos r := by
      rw [rowRejected_eq, rowRejected_eq]
      have hdec : decide (r.pano_id ∈ st1.processedPanos) =
          decide (r.pano_id ∈ st2.processedPanos) :=
        decide_eq_decide.mpr (h4 r.pano_id hrx)
      rw [hdec]
    rw [processRows_cons, processRows_cons]
    by_cases hrej : rowRejected st1.processedPanos r = true
    · rw [processRow_of_rejected st1 r hrej, processRow_of_rejected st2 r (hrejeq ▸ hrej)]
      exact ih st1 st2 hxs h1 h2 h3 h4
    · have hrej1 : rowRejected st1.processedPanos r = false := by simpa using hrej
      have hrej2 : rowRejected st2.processedPanos r = false := hrejeq ▸ hrej1
      have h4x : ∀ idc : Cell, idc ≠ x →
          (idc ∈ st1.processedPanos ++ [r.pano_id] ↔
            idc ∈ st2.processedPanos ++ [r.pano_id]) := by
        intro idc hidc
        simp [List.mem_append, h4 idc hidc]
      cases hd : jsNewDate r.capture_date with
      | none =>
        have e1 : processRow st1 r =
            { st1 with processedPanos := st1.processedPanos ++ [r.pano_id] } := by
          unfold processRow; simp [hrej1, hd]
        have e2 : processRow st2 r =
            { st2 with processedPanos := st2.processedPanos ++ [r.pano_id] } := by
          unfold processRow; simp [hrej2, hd]
        rw [e1, e2]
        exact ih _ _ hxs h1 h2 h3 h4x
      | some d =>
        have e1 : processRow st1 r =
            { st1 with processedPanos := st1.processedPanos ++ [r.pano_id],
                       markers := st1.markers ++
                         [{ lat := r.pano_lat, lon := r.pano_lon,
                            captureDate := d, panoId := r.pano_id }],
                       temporalMap := bumpTemporal st1.temporalMap (isoDay d),
                       validPoints := st1.validPoints ++ [(r.pano_lat, r.pano_lon)] } := by
          unfold processRow; simp [hrej1, hd]
        have e2 : processRow st2 r =
            { st2 with processedPanos := st2.processedPanos ++ [r.pano_id],
                       markers := st2.markers ++
                         [{ lat := r.pano_lat, lon := r.pano_lon,
                            captureDate := d, panoId := r.pano_id }],
                       temporalMap := bumpTemporal st2.temporalMap (isoDay d),
                       validPoints := st2.validPoints ++ [(r.pano_lat, r.pano_lon)] } := by
          unfold processRow; simp [hrej2, hd]
        rw [e1, e2]
        exact ih _ _ hxs (by simp [h1]) (by simp [h2]) (by simp [h3]) h4x

/-- C10: when the first row in file order bearing an identifier passes
the pre-date checks but its capture date fails to parse, its identifier
enters the dedup set anyway, and from then on no row bearing that
identifier — including later rows with valid dates — contributes any
marker, year-bucket entry or temporal count: the load aggregates exactly
as if every row bearing that identifier were absent, and no marker with
that identifier exists. -/
theorem bad_date_id_blocks_forever
    (pre post : List Row) (r0 : Row) (x : Cell)
    (hpre : ∀ r ∈ pre, r.pano_id ≠ x) (hid : r0.pano_id = x)
    (hsc : staticChecks r0 = true) (hdate : jsNewDate r0.capture_date = none) :
    (processRows initAgg (pre ++ r0 :: post)).markers =
      (processRows initAgg ((pre ++ r0 :: post).filter (fun r => r.pano_id ≠ x))).markers ∧
    (processRows initAgg (pre ++ r0 :: post)).temporalMap =
      (processRows initAgg ((pre ++ r0 :: post).filter (fun r => r.pano_id ≠ x))).temporalMap ∧
    (processRows initAgg (pre ++ r0 :: post)).validPoints =
      (processRows initAgg ((pre ++ r0 :: post).filter (fun r => r.pano_id ≠ x))).validPoints ∧
    (∀ m ∈ (processRows initAgg (pre ++ r0 :: post)).markers, m.panoId ≠ x) ∧
    (∀ y : Int, yearBucket (processRows initAgg (pre ++ r0 :: post)) y =
      yearBucket (processRows initAgg
        ((pre ++ r0 :: post).filter (fun r => r.pano_id ≠ x))) y) := by
  have hsplit : processRows initAgg (pre ++ r0 :: post) =
      processRows (processRow (processRows initAgg pre) r0) post := by
    unfold processRows
    rw [List.foldl_append, List.foldl_cons]
  have hxpre : x ∉ (processRows initAgg pre).processedPanos := by
    intro hmem
    rcases processed_id_from_rows pre initAgg x hmem with h | h
    · simp [initAgg] at h
    · rcases List.mem_map.mp h with ⟨r, hr, hrid⟩
      exact hpre r hr hrid
  have hrej : rowRejected (processRows initAgg pre).processedPanos r0 = false := by
    rw [rowRejected_eq, hsc]
    simp [hid, hxpre]
  have hstep : processRow (processRows initAgg pre) r0 =
      { processRows initAgg pre with
        processedPanos := (processRows initAgg pre).processedPanos ++ [r0.pano_id] } := by
    unfold processRow; simp [hrej, hdate]
  have hfilter : (pre ++ r0 :: post).filter (fun r => r.pano_id ≠ x) =
      pre ++ post.filter (fun r => r.pano_id ≠ x) := by
    have h1 : pre.filter (fun r => r.pano_id ≠ x) = pre := by
      rw [List.filter_eq_self]
      intro a ha
      simpa using hpre a ha
    have h2 : (r0 :: post).filter (fun r => r.pano_id ≠ x) =
        post.filter (fun r => r.pano_id ≠ x) := by
      simp [List.filter_cons, hid]
    rw [List.filter_append, h1, h2]
  have hb : processRows initAgg ((pre ++ r0 :: post).filter (fun r => r.pano_id ≠ x)) =
      processRows (processRows initAgg pre) (post.filter (fun r => r.pano_id ≠ x)) := by
    rw [hfilter]
    unfold processRows
    rw [List.foldl_append]
  have hmid : x ∈ (processRow (processRows initAgg pre) r0).processedPanos := by
    rw [hstep]
    simp [hid]
  have ha : processRows initAgg (pre ++ r0 :: post) =
      processRows (processRow (processRows initAgg pre) r0)
        (post.filter (fun r => r.pano_id ≠ x)) := by
    rw [hsplit, processRows_filter_of_mem x post _ hmid]
  have hpostx : ∀ r ∈ post.filter (fun r => r.pano_id ≠ x), r.pano_id ≠ x := by
    intro r hr
    have := List.of_mem_filter hr
    simpa using this
  have hrel := processRows_ignore_extra_id x (post.filter (fun r => r.pano_id ≠ x))
    (processRow (processRows initAgg pre) r0) (processRows initAgg pre)
    hpostx (by rw [hstep]) (by rw [hstep]) (by rw [hstep])
    (by
      intro idc hidc
      rw [hstep]
      simp only [List.mem_append, List.mem_singleton]
      constructor
      · rintro (h | h)
        · exact h
        · exact absurd (h.trans hid) hidc
      · intro h
        exact Or.inl h)
  have hmk : (processRows initAgg (pre ++ r0 :: post)).markers =
      (processRows initAgg ((pre ++ r0 :: post).filter (fun r => r.pano_id ≠ x))).markers := by
    rw [ha, hb]; exact hrel.1
  refine ⟨hmk, ?_, ?_, ?_, ?_⟩
  · rw [ha, hb]; exact hrel.2.1
  · rw [ha, hb]; exact hrel.2.2
  · intro m hm
    rw [hmk] at hm
    rcases marker_id_from_rows _ initAgg m hm with h | h
    · simp [initAgg] at h
    · rcases List.mem_map.mp h with ⟨r, hr, hrid⟩
      have := List.of_mem_filter hr
      rw [← hrid]
      simpa using this
  · intro y
    unfold yearBucket
    rw [hmk]

theorem bad_date_id_blocks_forever_witness :
    ((∀ r ∈ ([] : List Row), r.pano_id ≠ Cell.str "X") ∧
     rBadDate.pano_id = Cell.str "X" ∧
     staticChecks rBadDate = true ∧
     jsNewDate rBadDate.capture_date = none) ∧
    ((processRows initAgg ([] ++ rBadDate :: [rGoodDate, rOtherId])).markers =
      (processRows initAgg (([] ++ rBadDate :: [rGoodDate, rOtherId]).filter
        (fun r => r.pano_id ≠ Cell.str "X"))).markers ∧
     (processRows initAgg ([] ++ rBadDate :: [rGoodDate, rOtherId])).temporalMap =
      (processRows initAgg (([] ++ rBadDate :: [rGoodDate, rOtherId]).filter
        (fun r => r.pano_id ≠ Cell.str "X"))).temporalMap ∧
     (processRows initAgg ([] ++ rBadDate :: [rGoodDate, rOtherId])).validPoints =
      (processRows initAgg (([] ++ rBadDate :: [rGoodDate, rOtherId]).filter
        (fun r => r.pano_id ≠ Cell.str "X"))).validPoints ∧
     (∀ m ∈ (processRows initAgg ([] ++ rBadDate :: [rGoodDate, rOtherId])).markers,
        m.panoId ≠ Cell.str "X") ∧
     (∀ y : Int, yearBucket (processRows initAgg ([] ++ rBadDate :: [rGoodDate, rOtherId])) y =
        yearBucket (processRows initAgg (([] ++ rBadDate :: [rGoodDate, rOtherId]).filter
          (fun r => r.pano_id ≠ Cell.str "X"))) y)) :=
  ⟨⟨by decide, by decide, by decide, by decide⟩,
   bad_date_id_blocks_forever [] [rGoodDate, rOtherId] rBadDate (Cell.str "X")
     (by decide) (by decide) (by decide) (by decide)⟩

theorem runEvents_fail_prefix (totalBytes : Nat) (rest : List ReadEvent) :
    ∀ (chunks : List (Nat × List Char)) (st : LoadState),
      runEvents totalBytes st
        ((chunks.map fun p => ReadEvent.chunk p.1 p.2) ++ ReadEvent.decodeFail :: rest) =
      { final := chunks.foldl (fun s p => feedFragment (recordProgress totalBytes s p.1) p.2) st,
        outcome := .decodeError } := by
  intro chunks
  induction chunks with
  | nil => intro st; rfl
  | cons c cs ih =>
    intro st
    simp only [List.map_cons, List.cons_append, runEvents, List.foldl_cons]
    exact ih _

/-- C9: when decompression fails partway through a load, the load
terminates with a DecodeError, nothing after the failure is processed,
and every marker, year bucket and temporal count aggregated from the
fragments received before the failure remains exactly as built — the
catch block performs no rollback. -/
theorem decode_failure_keeps_partial_state (totalBytes : Nat)
    (chunks : List (Nat × List Char)) (rest : List ReadEvent) :
    (runLoad true totalBytes
      ((chunks.map fun p => ReadEvent.chunk p.1 p.2) ++
        ReadEvent.decodeFail :: rest)).outcome = .decodeError ∧
    (runLoad true totalBytes
      ((chunks.map fun p => ReadEvent.chunk p.1 p.2) ++
        ReadEvent.decodeFail :: rest)).final.agg = (pureChunkRun totalBytes chunks).agg ∧
    (∀ y : Int,
      yearBucket (runLoad true totalBytes
        ((chunks.map fun p => ReadEvent.chunk p.1 p.2) ++
          ReadEvent.decodeFail :: rest)).final.agg y =
      yearBucket (pureChunkRun totalBytes chunks).agg y) ∧
    (runLoad true totalBytes
      ((chunks.map fun p => ReadEvent.chunk p.1 p.2) ++
        ReadEvent.decodeFail :: rest)).final.agg.temporalMap =
      (pureChunkRun totalBytes chunks).agg.temporalMap := by
  have h2 : runLoad true totalBytes
      ((chunks.map fun p => ReadEvent.chunk p.1 p.2) ++ ReadEvent.decodeFail :: rest) =
      { final := pureChunkRun totalBytes chunks, outcome := .decodeError } :=
    runEvents_fail_prefix totalBytes rest chunks initLoad
  rw [h2]
  exact ⟨rfl, rfl, fun _ => rfl, rfl⟩

theorem recordProgress_reported (totalBytes : Nat) (st : LoadState) (sz : Nat) :
    (recordProgress totalBytes st sz).reported =
      st.reported ++ [pctOf totalBytes (st.receivedBytes + sz)] := rfl

theorem recordProgress_received (totalBytes : Nat) (st : LoadState) (sz : Nat) :
    (recordProgress totalBytes st sz).receivedBytes = st.receivedBytes + sz := rfl

theorem feedFragment_reported (st : LoadState) (v : List Char) :
    (feedFragment st v).reported = st.reported := by
  unfold feedFragment
  dsimp only
  repeat' split
  all_goals rfl

theorem feedFragment_received (st : LoadState) (v : List Char) :
    (feedFragment st v).receivedBytes = st.receivedBytes := by
  unfold feedFragment
  dsimp only
  repeat' split
  all_goals rfl

theorem finishLoad_reported (st : LoadState) :
    (finishLoad st).reported = st.reported ++ [100] := by
  unfold finishLoad
  dsimp only
  repeat' split
  all_goals rfl

/-- The full progress trace of the read loop: the in-flight percentages
of the chunks received before any failure, followed by the final 100
exactly when the loop reaches its done branch. -/
theorem runEvents_reported (totalBytes : Nat) :
    ∀ (events : List ReadEvent) (st : LoadState),
      (runEvents totalBytes st events).final.reported =
        st.reported ++ pcts totalBytes st.receivedBytes (chunksBeforeFailure events) ++
          (if hasFailure events then [] else [100]) ∧
      (runEvents totalBytes st events).outcome =
        (if hasFailure events then Outcome.decodeError else Outcome.success) := by
  intro events
  induction events with
  | nil =>
    intro st
    refine ⟨?_, rfl⟩
    simp [runEvents, finishLoad_reported, chunksBeforeFailure, pcts, hasFailure]
  | cons e rest ih =>
    cases e with
    | decodeFail =>
      intro st
      refine ⟨?_, rfl⟩
      simp [runEvents, chunksBeforeFailure, hasFailure, pcts]
    | chunk sz text =>
      intro st
      have h := ih (feedFragment (recordProgress totalBytes st sz) text)
      constructor
      · have hstep : runEvents totalBytes st (ReadEvent.chunk sz text :: rest) =
            runEvents totalBytes (feedFragment (recordProgress totalBytes st sz) text) rest :=
          rfl
        rw [hstep, h.1, feedFragment_reported, feedFragment_received,
          recordProgress_reported, recordProgress_received]
        simp [chunksBeforeFailure, hasFailure, pcts, List.append_assoc]
      · exact h.2

theorem pctOf_nonneg (t r : Nat) : 0 ≤ pctOf t r := by
  unfold pctOf
  apply le_min
  · positivity
  · norm_num

theorem pctOf_le_99 (t r : Nat) : pctOf t r ≤ 99 := min_le_right _ _

theorem pctOf_mono (t : Nat) {a b : Nat} (hab : a ≤ b) : pctOf t a ≤ pctOf t b := by
  unfold pctOf
  apply min_le_min _ le_rfl
  apply mul_le_mul_of_nonneg_right _ (by norm_num)
  rcases Nat.eq_zero_or_pos t with ht | ht
  · subst ht; simp
  · have hc : (0 : Rat) < (t : Rat) := by exact_mod_cast ht
    exact (div_le_div_iff_of_pos_right hc).mpr (by exact_mod_cast hab)

theorem pcts_mem_le_99 (t : Nat) :
    ∀ (sizes : List Nat) (base : Nat), ∀ x ∈ pcts t base sizes, x ≤ 99 := by
  intro sizes
  induction sizes with
  | nil => intro base x hx; simp [pcts] at hx
  | cons sz rest ih =>
    intro base x hx
    simp only [pcts] at hx
    rcases List.mem_cons.mp hx with h | h
    · rw [h]; exact pctOf_le_99 _ _
    · exact ih _ x h

theorem pcts_mem_nonneg (t : Nat) :
    ∀ (sizes : List Nat) (base : Nat), ∀ x ∈ pcts t base sizes, 0 ≤ x := by
  intro sizes
  induction sizes with
  | nil => intro base x hx; simp [pcts] at hx
  | cons sz rest ih =>
    intro base x hx
    simp only [pcts] at hx
    rcases List.mem_cons.mp hx with h | h
    · rw [h]; exact pctOf_nonneg _ _
    · exact ih _ x h

theorem pcts_mem_ge (t : Nat) :
    ∀ (sizes : List Nat) (base : Nat), ∀ x ∈ pcts t base sizes, pctOf t base ≤ x := by
  intro sizes
  induction sizes with
  | nil => intro base x hx; simp [pcts] at hx
  | cons sz rest ih =>
    intro base x hx
    simp only [pcts] at hx
    rcases List.mem_cons.mp hx with h | h
    · rw [h]; exact pctOf_mono t (Nat.le_add_right base sz)
    · exact le_trans (pctOf_mono t (Nat.le_add_right base sz)) (ih (base + sz) x h)

theorem pcts_chain (t : Nat) :
    ∀ (sizes : List Nat) (base : Nat), List.Chain' (· ≤ ·) (pcts t base sizes) := by
  intro sizes
  induction sizes with
  | nil => intro base; simp [pcts]
  | cons sz rest ih =>
    intro base
    simp only [pcts]
    rw [List.chain'_cons']
    refine ⟨?_, ih (base + sz)⟩
    intro y hy
    exact pcts_mem_ge t rest (base + sz) y (List.mem_of_mem_head? hy)

/-- C4: during one load the reported progress values are non-decreasing
and nonnegative; each value emitted while chunks arrive is exactly
min((receivedBytes / totalBytes) * 100, 99); and the final reported
value is 100 iff the load completed without a load or decode error. -/
theorem progress_reporting_contract (ok : Bool) (totalBytes : Nat) (events : List ReadEvent) :
    List.Chain' (· ≤ ·) (runLoad ok totalBytes events).final.reported ∧
    (∀ x ∈ (runLoad ok totalBytes events).final.reported, 0 ≤ x) ∧
    (runLoad ok totalBytes events).final.reported =
      (if ok then pcts totalBytes 0 (chunksBeforeFailure events) ++
        (if hasFailure events then [] else [100]) else []) ∧
    ((runLoad ok totalBytes events).final.reported.getLast? = some (100 : Rat) ↔
      (runLoad ok totalBytes events).outcome = .success) := by
  cases ok with
  | false =>
    refine ⟨?_, ?_, ?_, ?_⟩ <;> simp [runLoad, initLoad]
  | true =>
    have h := runEvents_reported totalBytes events initLoad
    have hrep : (runLoad true totalBytes events).final.reported =
        pcts totalBytes 0 (chunksBeforeFailure events) ++
          (if hasFailure events then [] else [100]) := by
      have h1 := h.1
      simpa [initLoad] using h1
    have hout : (runLoad true totalBytes events).outcome =
        (if hasFailure events then Outcome.decodeError else Outcome.success) := h.2
    refine ⟨?_, ?_, by simpa using hrep, ?_⟩
    · rw [hrep]
      cases hf : hasFailure events
      · simp only [hf, Bool.false_eq_true, if_false]
        rw [List.chain'_append]
        refine ⟨pcts_chain totalBytes (chunksBeforeFailure events) 0, by simp, ?_⟩
        intro x hx y hy
        have hx2 := pcts_mem_le_99 totalBytes (chunksBeforeFailure events) 0 x
          (List.mem_of_mem_getLast? hx)
        have hy2 : (100 : Rat) = y := by simpa using hy
        rw [← hy2]
        calc x ≤ 99 := hx2
        _ ≤ 100 := by norm_num
      · simp only [hf, if_true, List.append_nil]
        exact pcts_chain totalBytes _ 0
    · intro x hx
      rw [hrep] at hx
      cases hf : hasFailure events
      · simp only [hf, Bool.false_eq_true, if_false] at hx
        rcases List.mem_append.mp hx with h1 | h1
        · exact pcts_mem_nonneg totalBytes _ 0 x h1
        · have hx100 : x = 100 := by simpa using h1
          rw [hx100]; norm_num
      · simp only [hf, if_true] at hx
        exact pcts_mem_nonneg totalBytes _ 0 x (by simpa using hx)
    · rw [hrep, hout]
      cases hf : hasFailure events
      · simp only [hf, Bool.false_eq_true, if_false]
        rw [List.getLast?_concat]
        simp
      · simp only [hf, if_true]
        constructor
        · intro hl
          exfalso
          have hmem : (100 : Rat) ∈ pcts totalBytes 0 (chunksBeforeFailure events) :=
            List.mem_of_mem_getLast? (by simpa using hl)
          have := pcts_mem_le_99 totalBytes (chunksBeforeFailure events) 0 100 hmem
          norm_num at this
        · intro ho
          exact absurd ho (by simp)

set_option maxRecDepth 100000 in
/-- C1: the read loop flushes the buffer at its last newline even when
that newline sits inside a quoted field, so a fragment boundary inside
such a field breaks the invariance the loop comment asserts: on
c1WholeText — one fully valid data row whose quoted identifier field
embeds a newline — the whole-text run feeds exactly the one real row
and creates one marker, while the chunked run (same text, boundary
after the embedded newline) feeds two mangled rows and creates no
marker.  The multiset of parsed data rows differs between the runs. -/
theorem chunk_boundary_invariance_fails :
    c1Frag1 ++ c1Frag2 = c1WholeText ∧
    (c1Chunked.final.rowsFed : Multiset Row) ≠ (c1Whole.final.rowsFed : Multiset Row) ∧
    c1Whole.final.agg.markers.length = 1 ∧
    c1Chunked.final.agg.markers.length = 0 := by
  refine ⟨by decide, ?_, by decide, by decide⟩
  intro h
  have hp := Multiset.coe_eq_coe.mp h
  have hl := hp.length_eq
  exact absurd hl (by decide)

end GsvCity
